import Mathlib

/-!
# Verification of the cricket match-statistics aggregation engine

Shallow embedding of the statistics-aggregation code of the repository
(`reportdeepseek_v3.py` and `yamlopenrouteragent.py`).  The aggregation core
folds a match record (innings → deliveries → per-ball outcome) into
per-batsman, per-bowler, per-team (and, in the second script, extras)
aggregates and then derives rate metrics.

Modelling conventions:
* Python dicts parsed from the match log are modelled as structures whose
  possibly-absent fields are `Option`s; a dict access of a missing key is a
  Python `KeyError`, modelled by `Except PyErr` with the raised key name.
* `defaultdict` aggregate maps are modelled by `StrMap`: a total valuation
  (absent keys hold the zero default) together with the list of keys that
  have been materialised, in insertion order.
* Python ints are `Int`; the float arithmetic of the derived metrics is
  idealised as exact rationals, with `round2`/`round1` standing for Python's
  two- and one-decimal rounding.
* An unguarded Python division whose denominator is zero raises
  `ZeroDivisionError`, modelled as `PyErr.zeroDiv`.
-/

namespace Cricket

/-- A Python exception escaping the aggregation code: a `KeyError` carrying
the missing key, or a `ZeroDivisionError`. -/
inductive PyErr where
  | keyError (key : String)
  | zeroDiv
  deriving DecidableEq, Repr

/-- The `runs` sub-dict of one ball: `{'batsman': …, 'total': …}` (each
possibly absent in malformed data). -/
structure Runs where
  batsman : Option Int
  total : Option Int
  deriving DecidableEq, Repr

/-- One ball's outcome dict.  `wicket` records presence of the `'wicket'`
key; `extras` records, when the `'extras'` key is present, its dict as an
association list extra-type ↦ extra-run-value (iteration order of the keys
preserved). -/
structure Delivery where
  batsman : Option String
  bowler : Option String
  runs : Option Runs
  wicket : Bool
  extras : Option (List (String × Int))
  deriving DecidableEq, Repr

/-- One innings: the batting team id and the ordered deliveries. -/
structure Innings where
  team : String
  deliveries : List Delivery
  deriving DecidableEq, Repr

/-- A parsed match record: the ordered innings plus the match-info metadata
(teams, venue, outcome, …), which the aggregation never reads. -/
structure MatchRecord where
  innings : List Innings
  info : List (String × String) := []
  deriving DecidableEq, Repr

/-- A `defaultdict`-style mapping from string ids to aggregates: `val` is
total (unmaterialised keys hold the default), `keys` lists the materialised
keys in insertion order. -/
structure StrMap (α : Type) where
  keys : List String
  val : String → α

/-- `defaultdict` access-and-mutate: materialise `k` (appending it to `keys`
on first reference) and replace its value by `f` of the current value. -/
def StrMap.update {α : Type} (m : StrMap α) (k : String) (f : α → α) : StrMap α :=
  ⟨if k ∈ m.keys then m.keys else m.keys ++ [k], Function.update m.val k (f (m.val k))⟩

/-- A batting aggregate of `reportdeepseek_v3.py`:
`{'runs': 0, 'balls': 0, '4s': 0, '6s': 0}`. -/
structure BatAgg where
  runs : Int
  balls : Int
  fours : Int
  sixes : Int
  deriving DecidableEq, Repr

/-- A bowling aggregate (identical in both scripts):
`{'runs': 0, 'wickets': 0, 'balls': 0}`. -/
structure BowlAgg where
  runs : Int
  wickets : Int
  balls : Int
  deriving DecidableEq, Repr

/-- The mutable stats of `process_stats` before the derived-metric pass. -/
structure StatsD where
  batting : StrMap BatAgg
  bowling : StrMap BowlAgg
  team_scores : StrMap Int

/-- The zero-initialised stats dict of `process_stats`. -/
def initStatsD : StatsD :=
  ⟨⟨[], fun _ => ⟨0, 0, 0, 0⟩⟩, ⟨[], fun _ => ⟨0, 0, 0⟩⟩, ⟨[], fun _ => 0⟩⟩

/-- `update_batting_stats` of `reportdeepseek_v3.py`: read the batsman id and
the batsman-runs, then `runs += runs; balls += 1;
if runs == 4: fours += 1; if runs == 6: sixes += 1`. -/
def update_batting_stats (m : StrMap BatAgg) (d : Delivery) :
    Except PyErr (StrMap BatAgg) :=
  match d.batsman with
  | none => .error (.keyError "batsman")
  | some b =>
    match d.runs with
    | none => .error (.keyError "runs")
    | some r =>
      match r.batsman with
      | none => .error (.keyError "batsman")
      | some n =>
        .ok (m.update b fun a =>
          ⟨a.runs + n, a.balls + 1,
           a.fours + (if n = 4 then 1 else 0),
           a.sixes + (if n = 6 then 1 else 0)⟩)

/-- `update_bowling_stats` of `reportdeepseek_v3.py`: read the bowler id and
the total runs, then `runs += total; balls += 1;
if 'wicket' in ball_data: wickets += 1`. -/
def update_bowling_stats (m : StrMap BowlAgg) (d : Delivery) :
    Except PyErr (StrMap BowlAgg) :=
  match d.bowler with
  | none => .error (.keyError "bowler")
  | some bw =>
    match d.runs with
    | none => .error (.keyError "runs")
    | some r =>
      match r.total with
      | none => .error (.keyError "total")
      | some t =>
        .ok (m.update bw fun a =>
          ⟨a.runs + t, a.wickets + (if d.wicket then 1 else 0), a.balls + 1⟩)

/-- The body of the delivery loop of `process_stats`: batting update, bowling
update, then `team_scores[team] += ball_data['runs']['total']`. -/
def processDeliveryD (team : String) (s : StatsD) (d : Delivery) :
    Except PyErr StatsD :=
  match update_batting_stats s.batting d with
  | .error e => .error e
  | .ok batting2 =>
    match update_bowling_stats s.bowling d with
    | .error e => .error e
    | .ok bowling2 =>
      match d.runs with
      | none => .error (.keyError "runs")
      | some r =>
        match r.total with
        | none => .error (.keyError "total")
        | some t => .ok ⟨batting2, bowling2, s.team_scores.update team (· + t)⟩

/-- The delivery loop of `process_stats` over one innings. -/
def processDeliveriesD (team : String) (s : StatsD) :
    List Delivery → Except PyErr StatsD
  | [] => .ok s
  | d :: ds =>
    match processDeliveryD team s d with
    | .error e => .error e
    | .ok s1 => processDeliveriesD team s1 ds

/-- The innings loop of `process_stats`: resolve the batting team, then fold
the deliveries. -/
def processInningsD (s : StatsD) : List Innings → Except PyErr StatsD
  | [] => .ok s
  | inn :: rest =>
    match processDeliveriesD inn.team s inn.deliveries with
    | .error e => .error e
    | .ok s1 => processInningsD s1 rest

/-- Python's `round(x, 2)` on the idealised exact rationals. -/
def round2 (q : ℚ) : ℚ := (round (q * 100) : ℚ) / 100

/-- Python's `round(x, 1)` on the idealised exact rationals. -/
def round1 (q : ℚ) : ℚ := (round (q * 10) : ℚ) / 10

/-- A batting aggregate after the derived-metric pass of
`calculate_derived_metrics` added `strike_rate`. -/
structure BatFinal where
  runs : Int
  balls : Int
  fours : Int
  sixes : Int
  strike_rate : ℚ
  deriving DecidableEq, Repr

/-- A bowling aggregate after `calculate_derived_metrics` added `economy`
and `overs`. -/
structure BowlFinal where
  runs : Int
  wickets : Int
  balls : Int
  economy : ℚ
  overs : ℚ
  deriving DecidableEq, Repr

/-- The per-entry batting step of `calculate_derived_metrics`:
`strike_rate = round((runs / balls) * 100, 2) if balls > 0 else 0`. -/
def deriveBatD (a : BatAgg) : BatFinal :=
  ⟨a.runs, a.balls, a.fours, a.sixes,
   if a.balls > 0 then round2 ((a.runs : ℚ) / (a.balls : ℚ) * 100) else 0⟩

/-- The per-entry bowling step of `calculate_derived_metrics`:
`overs = balls / 6; economy = round(runs / overs, 2) if overs > 0 else 0;
overs = round(overs, 1)`. -/
def deriveBowlD (a : BowlAgg) : BowlFinal :=
  ⟨a.runs, a.wickets, a.balls,
   if (a.balls : ℚ) / 6 > 0 then round2 ((a.runs : ℚ) / ((a.balls : ℚ) / 6)) else 0,
   round1 ((a.balls : ℚ) / 6)⟩

/-- The snapshot returned by `process_stats`. -/
structure SnapshotD where
  batting : StrMap BatFinal
  bowling : StrMap BowlFinal
  team_scores : StrMap Int

/-- `calculate_derived_metrics` of `reportdeepseek_v3.py`: add `strike_rate`
to every materialised batting entry and `economy`/`overs` to every
materialised bowling entry (both loops run over the dict's own keys). -/
def calculate_derived_metrics (s : StatsD) : SnapshotD :=
  ⟨⟨s.batting.keys, fun k => deriveBatD (s.batting.val k)⟩,
   ⟨s.bowling.keys, fun k => deriveBowlD (s.bowling.val k)⟩,
   s.team_scores⟩

/-- `process_stats` of `reportdeepseek_v3.py`: fold all innings, then compute
the derived metrics. -/
def process_stats (data : MatchRecord) : Except PyErr SnapshotD :=
  match processInningsD initStatsD data.innings with
  | .error e => .error e
  | .ok s => .ok (calculate_derived_metrics s)

/-- The statistics path of `analyze_match` of `reportdeepseek_v3.py`: the
`try`/`except` wrapper turns any exception escaping `process_stats` into a
`None` result.  (File loading and the narrative-generation call are external
collaborators outside the aggregation core and are not modelled.) -/
def analyze_match (data : MatchRecord) : Option SnapshotD :=
  (process_stats data).toOption

/-! ## The aggregation of `yamlopenrouteragent.py` (`process_match_data`) -/

/-- A batting aggregate of `yamlopenrouteragent.py`: `{'runs': 0, 'balls': 0}`
(no boundary counters). -/
structure BatAggY where
  runs : Int
  balls : Int
  deriving DecidableEq, Repr

/-- The mutable stats of `process_match_data` before the derived-metric
pass: batting, bowling, extras and team scores. -/
structure StatsY where
  batting : StrMap BatAggY
  bowling : StrMap BowlAgg
  extras : StrMap Int
  team_scores : StrMap Int

/-- The zero-initialised stats dict of `process_match_data`. -/
def initStatsY : StatsY :=
  ⟨⟨[], fun _ => ⟨0, 0⟩⟩, ⟨[], fun _ => ⟨0, 0, 0⟩⟩, ⟨[], fun _ => 0⟩, ⟨[], fun _ => 0⟩⟩

/-- The extras step of `process_match_data`: for each key of the `'extras'`
dict (iterated in order), `extras[extra_type] += 1; extras['total'] += 1`.
Only the keys of the dict are read — the extra-run values are not. -/
def extrasStep (m : StrMap Int) (l : List (String × Int)) : StrMap Int :=
  l.foldl (fun acc p => (acc.update p.1 (· + 1)).update "total" (· + 1)) m

/-- The body of the delivery loop of `process_match_data`: inline batting
update (`runs += runs['batsman']; balls += 1`), inline bowling update
(`runs += runs['total']; balls += 1` — this script never touches the
`wickets` counter, which stays at its zero default), the extras step when
`'extras'` is present, then `team_scores[team] += runs['total']`. -/
def processDeliveryY (team : String) (s : StatsY) (d : Delivery) :
    Except PyErr StatsY :=
  match d.batsman with
  | none => .error (.keyError "batsman")
  | some b =>
    match d.runs with
    | none => .error (.keyError "runs")
    | some r =>
      match r.batsman with
      | none => .error (.keyError "batsman")
      | some n =>
        match d.bowler with
        | none => .error (.keyError "bowler")
        | some bw =>
          match r.total with
          | none => .error (.keyError "total")
          | some t =>
            let batting2 := s.batting.update b fun a => ⟨a.runs + n, a.balls + 1⟩
            let bowling2 := s.bowling.update bw fun a =>
              ⟨a.runs + t, a.wickets, a.balls + 1⟩
            let extras2 :=
              match d.extras with
              | none => s.extras
              | some l => extrasStep s.extras l
            .ok ⟨batting2, bowling2, extras2, s.team_scores.update team (· + t)⟩

/-- The delivery loop of `process_match_data` over one innings. -/
def processDeliveriesY (team : String) (s : StatsY) :
    List Delivery → Except PyErr StatsY
  | [] => .ok s
  | d :: ds =>
    match processDeliveryY team s d with
    | .error e => .error e
    | .ok s1 => processDeliveriesY team s1 ds

/-- The innings loop of `process_match_data`. -/
def processInningsY (s : StatsY) : List Innings → Except PyErr StatsY
  | [] => .ok s
  | inn :: rest =>
    match processDeliveriesY inn.team s inn.deliveries with
    | .error e => .error e
    | .ok s1 => processInningsY s1 rest

/-- A batting entry of `process_match_data` after `strike_rate` was added. -/
structure BatFinalY where
  runs : Int
  balls : Int
  strike_rate : ℚ
  deriving DecidableEq, Repr

/-- A bowling entry of `process_match_data` after `economy` was added (this
script computes no `overs` field). -/
structure BowlFinalY where
  runs : Int
  wickets : Int
  balls : Int
  economy : ℚ
  deriving DecidableEq, Repr

/-- The batting derived-metric loop of `process_match_data`:
`strike_rate = round((runs / balls) * 100, 2)` for every materialised key,
with NO zero guard — a materialised entry with `balls = 0` would raise
`ZeroDivisionError`. -/
def deriveBattingY (m : StrMap BatAggY) : Except PyErr (StrMap BatFinalY) :=
  if ∀ k ∈ m.keys, (m.val k).balls ≠ 0 then
    .ok ⟨m.keys, fun k =>
      ⟨(m.val k).runs, (m.val k).balls,
       round2 (((m.val k).runs : ℚ) / ((m.val k).balls : ℚ) * 100)⟩⟩
  else .error .zeroDiv

/-- The bowling derived-metric loop of `process_match_data`:
`economy = round(runs / (balls / 6), 2)` for every materialised key, again
with no zero guard. -/
def deriveBowlingY (m : StrMap BowlAgg) : Except PyErr (StrMap BowlFinalY) :=
  if ∀ k ∈ m.keys, (m.val k).balls ≠ 0 then
    .ok ⟨m.keys, fun k =>
      ⟨(m.val k).runs, (m.val k).wickets, (m.val k).balls,
       round2 (((m.val k).runs : ℚ) / (((m.val k).balls : ℚ) / 6))⟩⟩
  else .error .zeroDiv

/-- The snapshot returned by `process_match_data`. -/
structure SnapshotY where
  batting : StrMap BatFinalY
  bowling : StrMap BowlFinalY
  extras : StrMap Int
  team_scores : StrMap Int

/-- `process_match_data` of `yamlopenrouteragent.py`: fold all innings, then
run the two (unguarded) derived-metric loops. -/
def process_match_data (data : MatchRecord) : Except PyErr SnapshotY :=
  match processInningsY initStatsY data.innings with
  | .error e => .error e
  | .ok s =>
    match deriveBattingY s.batting with
    | .error e => .error e
    | .ok batting2 =>
      match deriveBowlingY s.bowling with
      | .error e => .error e
      | .ok bowling2 => .ok ⟨batting2, bowling2, s.extras, s.team_scores⟩

/-- The statistics path of `analyze_cricket_match` of
`yamlopenrouteragent.py`: its `try`/`except` wrapper turns any exception
escaping `process_match_data` into an error-string result, modelled as
`none`.  (File loading and the report-generation call are external
collaborators outside the aggregation core and are not modelled.) -/
def analyze_cricket_match (data : MatchRecord) : Option SnapshotY :=
  (process_match_data data).toOption

/-! ## Validity of records -/

/-- A delivery carries all the fields the aggregation requires: batsman id,
bowler id, and a runs dict with batsman-runs and total-runs. -/
def validDelivery (d : Delivery) : Bool :=
  d.batsman.isSome && d.bowler.isSome &&
    (match d.runs with
     | none => false
     | some r => r.batsman.isSome && r.total.isSome)

/-- A record is valid when every delivery of every innings is valid. -/
def validRecord (data : MatchRecord) : Bool :=
  data.innings.all fun inn => inn.deliveries.all validDelivery

/-! ## Concrete fixtures (the scenarios of the specification) -/

/-- Scenario A's single delivery:
`{batsman: "P1", bowler: "B1", runs: {batsman: 4, total: 4}}`. -/
def dA : Delivery := ⟨some "P1", some "B1", some ⟨some 4, some 4⟩, false, none⟩

/-- Scenario A's record: a single innings of one four. -/
def recA : MatchRecord := ⟨[⟨"T1", [dA]⟩], []⟩

/-- A single-run delivery by batsman "P1" off bowler "B1", with or without a
wicket (Scenario D's ball shape). -/
def dD (w : Bool) : Delivery := ⟨some "P1", some "B1", some ⟨some 1, some 1⟩, w, none⟩

/-- Scenario D's record: six deliveries all bowled by "B1" with total runs 1
each and one wicket on the fourth. -/
def recD : MatchRecord :=
  ⟨[⟨"T1", [dD false, dD false, dD false, dD true, dD false, dD false]⟩], []⟩

/-- Scenario C's record: a single delivery that lacks the `'bowler'` field. -/
def recC : MatchRecord :=
  ⟨[⟨"T1", [⟨some "P1", none, some ⟨some 0, some 0⟩, false, none⟩]⟩], []⟩

/-- Scenario B's record: an empty innings list. -/
def recB : MatchRecord := ⟨[], []⟩

/-! ## `StrMap` lemmas -/

theorem StrMap.val_update_self {α : Type} (m : StrMap α) (k : String) (f : α → α) :
    (m.update k f).val k = f (m.val k) := by
  simp [StrMap.update]

theorem StrMap.val_update_of_ne {α : Type} (m : StrMap α) {k j : String} (f : α → α)
    (h : j ≠ k) : (m.update k f).val j = m.val j := by
  simp [StrMap.update, Function.update_noteq h]

theorem StrMap.mem_keys_update {α : Type} (m : StrMap α) (k j : String) (f : α → α) :
    j ∈ (m.update k f).keys ↔ j ∈ m.keys ∨ j = k := by
  unfold StrMap.update
  by_cases hk : k ∈ m.keys
  · simp only [hk, if_true]
    constructor
    · exact Or.inl
    · rintro (h | rfl)
      · exact h
      · exact hk
  · simp [hk]

theorem StrMap.nodup_update {α : Type} (m : StrMap α) (k : String) (f : α → α)
    (h : m.keys.Nodup) : (m.update k f).keys.Nodup := by
  unfold StrMap.update
  by_cases hk : k ∈ m.keys
  · simpa [hk] using h
  · simp [hk, List.nodup_append, h]

theorem StrMap.offkeys_update {α : Type} {d : α} (m : StrMap α) (k : String) (f : α → α)
    (h : ∀ j, j ∉ m.keys → m.val j = d) :
    ∀ j, j ∉ (m.update k f).keys → (m.update k f).val j = d := by
  intro j hj
  have hjk : j ≠ k := by
    intro he
    exact hj ((m.mem_keys_update k j f).2 (Or.inr he))
  have hjm : j ∉ m.keys := fun hmem => hj ((m.mem_keys_update k j f).2 (Or.inl hmem))
  rw [m.val_update_of_ne f hjk]
  exact h j hjm

/-- The sum of an integer aggregate map over its materialised keys. -/
def StrMap.sumVal (m : StrMap Int) : Int := (m.keys.map m.val).sum

theorem sum_map_update_mem (v : String → Int) (w : Int) :
    ∀ l : List String, l.Nodup → ∀ k ∈ l,
      (l.map (Function.update v k w)).sum = (l.map v).sum + (w - v k) := by
  intro l
  induction l with
  | nil => intro _ k hk; cases hk
  | cons a l ih =>
    intro hnd k hk
    have hal : a ∉ l := (List.nodup_cons.1 hnd).1
    have hl : l.Nodup := (List.nodup_cons.1 hnd).2
    rcases List.mem_cons.1 hk with rfl | hkl
    · have : l.map (Function.update v k w) = l.map v := by
        apply List.map_congr_left
        intro j hj
        have : j ≠ k := fun he => hal (he ▸ hj)
        exact Function.update_noteq this w v
      simp only [List.map_cons, List.sum_cons, this, Function.update_same]
      ring
    · have hak : a ≠ k := fun he => hal (he ▸ hkl)
      simp only [List.map_cons, List.sum_cons, Function.update_noteq hak,
        ih hl k hkl]
      ring

theorem StrMap.sumVal_update_add (m : StrMap Int) (k : String) (t : Int)
    (hnd : m.keys.Nodup) (hoff : ∀ j, j ∉ m.keys → m.val j = 0) :
    (m.update k (· + t)).sumVal = m.sumVal + t := by
  unfold StrMap.sumVal StrMap.update
  by_cases hk : k ∈ m.keys
  · simp only [hk, if_true]
    rw [sum_map_update_mem m.val (m.val k + t) m.keys hnd k hk]
    ring
  · simp only [hk, if_false, List.map_append, List.sum_append, List.map_cons,
      List.map_nil, List.sum_cons, List.sum_nil, Function.update_same]
    have : m.keys.map (Function.update m.val k (m.val k + t)) = m.keys.map m.val := by
      apply List.map_congr_left
      intro j hj
      have : j ≠ k := fun he => hk (he ▸ hj)
      exact Function.update_noteq this _ _
    rw [this, hoff k hk]
    ring

/-- Destructuring of a valid delivery into its required fields. -/
theorem validDelivery_iff (d : Delivery) :
    validDelivery d = true ↔
      ∃ b bw r n t, d.batsman = some b ∧ d.bowler = some bw ∧ d.runs = some r ∧
        r.batsman = some n ∧ r.total = some t := by
  obtain ⟨db, dbw, dr, dw, de⟩ := d
  cases db <;> cases dbw <;> cases dr <;> simp [validDelivery]
  case some.some.some b bw r =>
    obtain ⟨rb, rt⟩ := r
    cases rb <;> cases rt <;> simp

/-- The total-runs of a delivery as read by the team-score update (zero when
the field is absent; the aggregation errors before using it in that case). -/
def deliveryTotal (d : Delivery) : Int :=
  match d.runs with
  | none => 0
  | some r => r.total.getD 0

/-- The sum of the total-runs of all deliveries of one innings. -/
def inningsTotal (inn : Innings) : Int := (inn.deliveries.map deliveryTotal).sum

/-- The sum of the total-runs of every delivery of the record. -/
def recordTotal (data : MatchRecord) : Int := (data.innings.map inningsTotal).sum

/-! ## Step lemmas for `process_stats` -/

theorem processDeliveryD_eq (team : String) (s : StatsD) (d : Delivery)
    {b bw : String} {r : Runs} {n t : Int}
    (hb : d.batsman = some b) (hbw : d.bowler = some bw) (hr : d.runs = some r)
    (hn : r.batsman = some n) (ht : r.total = some t) :
    processDeliveryD team s d = .ok
      ⟨s.batting.update b fun a =>
          ⟨a.runs + n, a.balls + 1, a.fours + (if n = 4 then 1 else 0),
           a.sixes + (if n = 6 then 1 else 0)⟩,
       s.bowling.update bw fun a =>
          ⟨a.runs + t, a.wickets + (if d.wicket then 1 else 0), a.balls + 1⟩,
       s.team_scores.update team (· + t)⟩ := by
  simp [processDeliveryD, update_batting_stats, update_bowling_stats, hb, hbw, hr, hn, ht]

theorem processDeliveryD_ok_elim {team : String} {s s' : StatsD} {d : Delivery}
    (h : processDeliveryD team s d = .ok s') :
    ∃ b bw r n t, d.batsman = some b ∧ d.bowler = some bw ∧ d.runs = some r ∧
      r.batsman = some n ∧ r.total = some t ∧
      s' = ⟨s.batting.update b fun a =>
              ⟨a.runs + n, a.balls + 1, a.fours + (if n = 4 then 1 else 0),
               a.sixes + (if n = 6 then 1 else 0)⟩,
            s.bowling.update bw fun a =>
              ⟨a.runs + t, a.wickets + (if d.wicket then 1 else 0), a.balls + 1⟩,
            s.team_scores.update team (· + t)⟩ := by
  cases hb : d.batsman with
  | none => simp [processDeliveryD, update_batting_stats, hb] at h
  | some b =>
    cases hr : d.runs with
    | none => simp [processDeliveryD, update_batting_stats, hb, hr] at h
    | some r =>
      cases hn : r.batsman with
      | none => simp [processDeliveryD, update_batting_stats, hb, hr, hn] at h
      | some n =>
        cases hbw : d.bowler with
        | none => simp [processDeliveryD, update_batting_stats,
            update_bowling_stats, hb, hr, hn, hbw] at h
        | some bw =>
          cases ht : r.total with
          | none => simp [processDeliveryD, update_batting_stats,
              update_bowling_stats, hb, hr, hn, hbw, ht] at h
          | some t =>
            refine ⟨b, bw, r, n, t, rfl, rfl, rfl, hn, ht, ?_⟩
            rw [processDeliveryD_eq team s d hb hbw hr hn ht] at h
            exact (Except.ok.inj h).symm

theorem processDeliveryD_ok_valid {team : String} {s s' : StatsD} {d : Delivery}
    (h : processDeliveryD team s d = .ok s') : validDelivery d = true := by
  obtain ⟨b, bw, r, n, t, hb, hbw, hr, hn, ht, _⟩ := processDeliveryD_ok_elim h
  exact (validDelivery_iff d).2 ⟨b, bw, r, n, t, hb, hbw, hr, hn, ht⟩

theorem processDeliveryD_ok_of_valid (team : String) (s : StatsD) {d : Delivery}
    (h : validDelivery d = true) : ∃ s', processDeliveryD team s d = .ok s' := by
  obtain ⟨b, bw, r, n, t, hb, hbw, hr, hn, ht⟩ := (validDelivery_iff d).1 h
  exact ⟨_, processDeliveryD_eq team s d hb hbw hr hn ht⟩

theorem processDeliveriesD_ok_of_valid (team : String) :
    ∀ (ds : List Delivery) (s : StatsD), (∀ d ∈ ds, validDelivery d = true) →
      ∃ s', processDeliveriesD team s ds = .ok s' := by
  intro ds
  induction ds with
  | nil => exact fun s _ => ⟨s, rfl⟩
  | cons d ds ih =>
    intro s hv
    obtain ⟨s1, hs1⟩ := processDeliveryD_ok_of_valid team s (hv d (List.mem_cons_self d ds))
    obtain ⟨s', hs'⟩ := ih s1 fun d' hd' => hv d' (List.mem_cons_of_mem d hd')
    exact ⟨s', by simp [processDeliveriesD, hs1, hs']⟩

theorem processDeliveriesD_ok_valid {team : String} :
    ∀ {ds : List Delivery} {s s' : StatsD}, processDeliveriesD team s ds = .ok s' →
      ∀ d ∈ ds, validDelivery d = true := by
  intro ds
  induction ds with
  | nil => intro s s' _ d hd; cases hd
  | cons d0 ds ih =>
    intro s s' h d hd
    unfold processDeliveriesD at h
    cases h1 : processDeliveryD team s d0 with
    | error e => rw [h1] at h; cases h
    | ok s1 =>
      rw [h1] at h
      rcases List.mem_cons.1 hd with rfl | hd'
      · exact processDeliveryD_ok_valid h1
      · exact ih h d hd'

theorem processInningsD_ok_of_valid :
    ∀ (inns : List Innings) (s : StatsD),
      (∀ inn ∈ inns, ∀ d ∈ inn.deliveries, validDelivery d = true) →
      ∃ s', processInningsD s inns = .ok s' := by
  intro inns
  induction inns with
  | nil => exact fun s _ => ⟨s, rfl⟩
  | cons inn inns ih =>
    intro s hv
    obtain ⟨s1, hs1⟩ := processDeliveriesD_ok_of_valid inn.team inn.deliveries s
      (hv inn (List.mem_cons_self inn inns))
    obtain ⟨s', hs'⟩ := ih s1 fun i hi d hd => hv i (List.mem_cons_of_mem inn hi) d hd
    exact ⟨s', by simp [processInningsD, hs1, hs']⟩

theorem processInningsD_ok_valid :
    ∀ {inns : List Innings} {s s' : StatsD}, processInningsD s inns = .ok s' →
      ∀ inn ∈ inns, ∀ d ∈ inn.deliveries, validDelivery d = true := by
  intro inns
  induction inns with
  | nil => intro s s' _ inn hinn; cases hinn
  | cons inn0 inns ih =>
    intro s s' h inn hinn
    unfold processInningsD at h
    cases h1 : processDeliveriesD inn0.team s inn0.deliveries with
    | error e => rw [h1] at h; cases h
    | ok s1 =>
      rw [h1] at h
      rcases List.mem_cons.1 hinn with rfl | hinn'
      · exact fun d hd => processDeliveriesD_ok_valid h1 d hd
      · exact ih h inn hinn'

/-- The team-score invariant threaded through the fold: materialised keys are
distinct and unmaterialised keys hold the zero default. -/
def InvTS (m : StrMap Int) : Prop :=
  m.keys.Nodup ∧ ∀ j, j ∉ m.keys → m.val j = 0

theorem processDeliveryD_team {team : String} {s s' : StatsD} {d : Delivery}
    (h : processDeliveryD team s d = .ok s') (hinv : InvTS s.team_scores) :
    InvTS s'.team_scores ∧
      s'.team_scores.sumVal = s.team_scores.sumVal + deliveryTotal d := by
  obtain ⟨b, bw, r, n, t, _, _, hr, _, ht, rfl⟩ := processDeliveryD_ok_elim h
  have htot : deliveryTotal d = t := by simp [deliveryTotal, hr, ht]
  refine ⟨⟨?_, ?_⟩, ?_⟩
  · exact s.team_scores.nodup_update team _ hinv.1
  · exact s.team_scores.offkeys_update team _ hinv.2
  · rw [htot]
    exact s.team_scores.sumVal_update_add team t hinv.1 hinv.2

theorem processDeliveriesD_team {team : String} :
    ∀ {ds : List Delivery} {s s' : StatsD}, processDeliveriesD team s ds = .ok s' →
      InvTS s.team_scores →
      InvTS s'.team_scores ∧
        s'.team_scores.sumVal = s.team_scores.sumVal + (ds.map deliveryTotal).sum := by
  intro ds
  induction ds with
  | nil =>
    intro s s' h hinv
    cases h
    simpa using hinv
  | cons d ds ih =>
    intro s s' h hinv
    unfold processDeliveriesD at h
    cases h1 : processDeliveryD team s d with
    | error e => rw [h1] at h; cases h
    | ok s1 =>
      rw [h1] at h
      obtain ⟨hinv1, hsum1⟩ := processDeliveryD_team h1 hinv
      obtain ⟨hinv', hsum'⟩ := ih h hinv1
      refine ⟨hinv', ?_⟩
      rw [hsum', hsum1]
      simp [List.sum_cons]
      ring

theorem processInningsD_team :
    ∀ {inns : List Innings} {s s' : StatsD}, processInningsD s inns = .ok s' →
      InvTS s.team_scores →
      InvTS s'.team_scores ∧
        s'.team_scores.sumVal = s.team_scores.sumVal + (inns.map inningsTotal).sum := by
  intro inns
  induction inns with
  | nil =>
    intro s s' h hinv
    cases h
    simpa using hinv
  | cons inn inns ih =>
    intro s s' h hinv
    unfold processInningsD at h
    cases h1 : processDeliveriesD inn.team s inn.deliveries with
    | error e => rw [h1] at h; cases h
    | ok s1 =>
      rw [h1] at h
      obtain ⟨hinv1, hsum1⟩ := processDeliveriesD_team h1 hinv
      obtain ⟨hinv', hsum'⟩ := ih h hinv1
      refine ⟨hinv', ?_⟩
      rw [hsum', hsum1]
      simp [List.sum_cons, inningsTotal]
      ring

/-! ## Step lemmas for `process_match_data` -/

theorem processDeliveryY_eq (team : String) (s : StatsY) (d : Delivery)
    {b bw : String} {r : Runs} {n t : Int}
    (hb : d.batsman = some b) (hbw : d.bowler = some bw) (hr : d.runs = some r)
    (hn : r.batsman = some n) (ht : r.total = some t) :
    processDeliveryY team s d = .ok
      ⟨s.batting.update b fun a => ⟨a.runs + n, a.balls + 1⟩,
       s.bowling.update bw fun a => ⟨a.runs + t, a.wickets, a.balls + 1⟩,
       (match d.extras with
        | none => s.extras
        | some l => extrasStep s.extras l),
       s.team_scores.update team (· + t)⟩ := by
  simp [processDeliveryY, hb, hbw, hr, hn, ht]

theorem processDeliveryY_ok_of_valid (team : String) (s : StatsY) {d : Delivery}
    (h : validDelivery d = true) : ∃ s', processDeliveryY team s d = .ok s' := by
  obtain ⟨b, bw, r, n, t, hb, hbw, hr, hn, ht⟩ := (validDelivery_iff d).1 h
  exact ⟨_, processDeliveryY_eq team s d hb hbw hr hn ht⟩

theorem processDeliveryY_ok_valid {team : String} {s s' : StatsY} {d : Delivery}
    (h : processDeliveryY team s d = .ok s') : validDelivery d = true := by
  cases hb : d.batsman with
  | none => simp [processDeliveryY, hb] at h
  | some b =>
    cases hr : d.runs with
    | none => simp [processDeliveryY, hb, hr] at h
    | some r =>
      cases hn : r.batsman with
      | none => simp [processDeliveryY, hb, hr, hn] at h
      | some n =>
        cases hbw : d.bowler with
        | none => simp [processDeliveryY, hb, hr, hn, hbw] at h
        | some bw =>
          cases ht : r.total with
          | none => simp [processDeliveryY, hb, hr, hn, hbw, ht] at h
          | some t =>
            exact (validDelivery_iff d).2 ⟨b, bw, r, n, t, hb, hbw, hr, hn, ht⟩

theorem processDeliveriesY_ok_of_valid (team : String) :
    ∀ (ds : List Delivery) (s : StatsY), (∀ d ∈ ds, validDelivery d = true) →
      ∃ s', processDeliveriesY team s ds = .ok s' := by
  intro ds
  induction ds with
  | nil => exact fun s _ => ⟨s, rfl⟩
  | cons d ds ih =>
    intro s hv
    obtain ⟨s1, hs1⟩ := processDeliveryY_ok_of_valid team s (hv d (List.mem_cons_self d ds))
    obtain ⟨s', hs'⟩ := ih s1 fun d' hd' => hv d' (List.mem_cons_of_mem d hd')
    exact ⟨s', by simp [processDeliveriesY, hs1, hs']⟩

theorem processInningsY_ok_of_valid :
    ∀ (inns : List Innings) (s : StatsY),
      (∀ inn ∈ inns, ∀ d ∈ inn.deliveries, validDelivery d = true) →
      ∃ s', processInningsY s inns = .ok s' := by
  intro inns
  induction inns with
  | nil => exact fun s _ => ⟨s, rfl⟩
  | cons inn inns ih =>
    intro s hv
    obtain ⟨s1, hs1⟩ := processDeliveriesY_ok_of_valid inn.team inn.deliveries s
      (hv inn (List.mem_cons_self inn inns))
    obtain ⟨s', hs'⟩ := ih s1 fun i hi d hd => hv i (List.mem_cons_of_mem inn hi) d hd
    exact ⟨s', by simp [processInningsY, hs1, hs']⟩

/-! ## The balls-at-least-one invariant of the lazily created aggregates -/

theorem StrMap.balls_update {α : Type} (m : StrMap α) (g : α → Int) (k : String)
    (f : α → α) (h0 : ∀ j, 0 ≤ g (m.val j)) (h1 : ∀ j ∈ m.keys, 1 ≤ g (m.val j))
    (hf : g (f (m.val k)) = g (m.val k) + 1) :
    (∀ j, 0 ≤ g ((m.update k f).val j)) ∧
      ∀ j ∈ (m.update k f).keys, 1 ≤ g ((m.update k f).val j) := by
  constructor
  · intro j
    by_cases hj : j = k
    · subst hj
      rw [m.val_update_self j f, hf]
      have := h0 j
      linarith
    · rw [m.val_update_of_ne f hj]
      exact h0 j
  · intro j hjmem
    by_cases hj : j = k
    · subst hj
      rw [m.val_update_self j f, hf]
      have := h0 j
      linarith
    · rw [m.val_update_of_ne f hj]
      rcases (m.mem_keys_update k j f).1 hjmem with hmem | he
      · exact h1 j hmem
      · exact absurd he hj

/-- Every materialised batting and bowling entry of the `process_match_data`
fold has faced/bowled at least one ball (and ball counts are non-negative
everywhere). -/
def BallsInvY (s : StatsY) : Prop :=
  (∀ j, 0 ≤ (s.batting.val j).balls) ∧ (∀ j ∈ s.batting.keys, 1 ≤ (s.batting.val j).balls) ∧
    (∀ j, 0 ≤ (s.bowling.val j).balls) ∧ ∀ j ∈ s.bowling.keys, 1 ≤ (s.bowling.val j).balls

theorem processDeliveryY_ballsInv {team : String} {s s' : StatsY} {d : Delivery}
    (h : processDeliveryY team s d = .ok s') (hinv : BallsInvY s) : BallsInvY s' := by
  obtain ⟨b, bw, r, n, t, hb, hbw, hr, hn, ht⟩ :=
    (validDelivery_iff d).1 (processDeliveryY_ok_valid h)
  rw [processDeliveryY_eq team s d hb hbw hr hn ht] at h
  obtain rfl : _ = s' := Except.ok.inj h
  obtain ⟨h1, h2, h3, h4⟩ := hinv
  obtain ⟨g1, g2⟩ := s.batting.balls_update (fun a => a.balls) b
    (fun a => ⟨a.runs + n, a.balls + 1⟩) h1 h2 rfl
  obtain ⟨g3, g4⟩ := s.bowling.balls_update (fun a => a.balls) bw
    (fun a => ⟨a.runs + t, a.wickets, a.balls + 1⟩) h3 h4 rfl
  exact ⟨g1, g2, g3, g4⟩

theorem processDeliveriesY_ballsInv {team : String} :
    ∀ {ds : List Delivery} {s s' : StatsY}, processDeliveriesY team s ds = .ok s' →
      BallsInvY s → BallsInvY s' := by
  intro ds
  induction ds with
  | nil =>
    intro s s' h hinv
    cases h
    exact hinv
  | cons d ds ih =>
    intro s s' h hinv
    unfold processDeliveriesY at h
    cases h1 : processDeliveryY team s d with
    | error e => rw [h1] at h; cases h
    | ok s1 =>
      rw [h1] at h
      exact ih h (processDeliveryY_ballsInv h1 hinv)

theorem processInningsY_ballsInv :
    ∀ {inns : List Innings} {s s' : StatsY}, processInningsY s inns = .ok s' →
      BallsInvY s → BallsInvY s' := by
  intro inns
  induction inns with
  | nil =>
    intro s s' h hinv
    cases h
    exact hinv
  | cons inn inns ih =>
    intro s s' h hinv
    unfold processInningsY at h
    cases h1 : processDeliveriesY inn.team s inn.deliveries with
    | error e => rw [h1] at h; cases h
    | ok s1 =>
      rw [h1] at h
      exact ih h (processDeliveriesY_ballsInv h1 hinv)

theorem initStatsY_ballsInv : BallsInvY initStatsY := by
  refine ⟨fun j => le_refl 0, fun j hj => ?_, fun j => le_refl 0, fun j hj => ?_⟩ <;>
    cases hj

/-- `process_match_data` never increments a wicket count: every bowling
entry's wickets component stays at its zero default. -/
def WicketsZeroY (s : StatsY) : Prop := ∀ k, (s.bowling.val k).wickets = 0

theorem processDeliveryY_wicketsZero {team : String} {s s' : StatsY} {d : Delivery}
    (h : processDeliveryY team s d = .ok s') (hw : WicketsZeroY s) : WicketsZeroY s' := by
  obtain ⟨b, bw, r, n, t, hb, hbw, hr, hn, ht⟩ :=
    (validDelivery_iff d).1 (processDeliveryY_ok_valid h)
  rw [processDeliveryY_eq team s d hb hbw hr hn ht] at h
  obtain rfl : _ = s' := Except.ok.inj h
  intro k
  dsimp only
  by_cases hk : k = bw
  · subst hk
    rw [StrMap.val_update_self]
    exact hw k
  · rw [StrMap.val_update_of_ne _ _ hk]
    exact hw k

theorem processDeliveriesY_wicketsZero {team : String} :
    ∀ {ds : List Delivery} {s s' : StatsY}, processDeliveriesY team s ds = .ok s' →
      WicketsZeroY s → WicketsZeroY s' := by
  intro ds
  induction ds with
  | nil =>
    intro s s' h hw
    cases h
    exact hw
  | cons d ds ih =>
    intro s s' h hw
    unfold processDeliveriesY at h
    cases h1 : processDeliveryY team s d with
    | error e => rw [h1] at h; cases h
    | ok s1 =>
      rw [h1] at h
      exact ih h (processDeliveryY_wicketsZero h1 hw)

theorem processInningsY_wicketsZero :
    ∀ {inns : List Innings} {s s' : StatsY}, processInningsY s inns = .ok s' →
      WicketsZeroY s → WicketsZeroY s' := by
  intro inns
  induction inns with
  | nil =>
    intro s s' h hw
    cases h
    exact hw
  | cons inn inns ih =>
    intro s s' h hw
    unfold processInningsY at h
    cases h1 : processDeliveriesY inn.team s inn.deliveries with
    | error e => rw [h1] at h; cases h
    | ok s1 =>
      rw [h1] at h
      exact ih h (processDeliveriesY_wicketsZero h1 hw)

theorem initStatsY_wicketsZero : WicketsZeroY initStatsY := fun _ => rfl

theorem deriveBattingY_ok (m : StrMap BatAggY)
    (h1 : ∀ j ∈ m.keys, 1 ≤ (m.val j).balls) :
    deriveBattingY m = .ok ⟨m.keys, fun k =>
      ⟨(m.val k).runs, (m.val k).balls,
       round2 (((m.val k).runs : ℚ) / ((m.val k).balls : ℚ) * 100)⟩⟩ := by
  unfold deriveBattingY
  rw [if_pos]
  intro k hk
  have := h1 k hk
  intro he
  rw [he] at this
  exact absurd this (by norm_num)

theorem deriveBowlingY_ok (m : StrMap BowlAgg)
    (h1 : ∀ j ∈ m.keys, 1 ≤ (m.val j).balls) :
    deriveBowlingY m = .ok ⟨m.keys, fun k =>
      ⟨(m.val k).runs, (m.val k).wickets, (m.val k).balls,
       round2 (((m.val k).runs : ℚ) / (((m.val k).balls : ℚ) / 6))⟩⟩ := by
  unfold deriveBowlingY
  rw [if_pos]
  intro k hk
  have := h1 k hk
  intro he
  rw [he] at this
  exact absurd this (by norm_num)

/-! ## Whole-pipeline success under validity -/

theorem validRecord_iff (data : MatchRecord) :
    validRecord data = true ↔
      ∀ inn ∈ data.innings, ∀ d ∈ inn.deliveries, validDelivery d = true := by
  simp [validRecord, List.all_eq_true]

theorem process_stats_ok_of_valid {data : MatchRecord} (hv : validRecord data = true) :
    ∃ s0, processInningsD initStatsD data.innings = .ok s0 ∧
      process_stats data = .ok (calculate_derived_metrics s0) := by
  obtain ⟨s0, hs0⟩ :=
    processInningsD_ok_of_valid data.innings initStatsD ((validRecord_iff data).1 hv)
  exact ⟨s0, hs0, by simp [process_stats, hs0]⟩

theorem process_match_data_ok_of_valid {data : MatchRecord}
    (hv : validRecord data = true) :
    ∃ s0, processInningsY initStatsY data.innings = .ok s0 ∧ BallsInvY s0 ∧
      process_match_data data = .ok
        ⟨⟨s0.batting.keys, fun k =>
            ⟨(s0.batting.val k).runs, (s0.batting.val k).balls,
             round2 (((s0.batting.val k).runs : ℚ) / ((s0.batting.val k).balls : ℚ) * 100)⟩⟩,
         ⟨s0.bowling.keys, fun k =>
            ⟨(s0.bowling.val k).runs, (s0.bowling.val k).wickets, (s0.bowling.val k).balls,
             round2 (((s0.bowling.val k).runs : ℚ) / (((s0.bowling.val k).balls : ℚ) / 6))⟩⟩,
         s0.extras, s0.team_scores⟩ := by
  obtain ⟨s0, hs0⟩ :=
    processInningsY_ok_of_valid data.innings initStatsY ((validRecord_iff data).1 hv)
  have hinv : BallsInvY s0 := processInningsY_ballsInv hs0 initStatsY_ballsInv
  refine ⟨s0, hs0, hinv, ?_⟩
  simp [process_match_data, hs0, deriveBattingY_ok s0.batting hinv.2.1,
    deriveBowlingY_ok s0.bowling hinv.2.2.2]

/-! ## Lockstep relation between the two implementations -/

/-- Agreement of the two folds' states on everything both scripts maintain
identically: batting keys and per-key runs/balls, bowling keys and per-key
runs/balls (NOT wickets — `process_match_data` never increments them), and
the whole team-score map. -/
def RelRaw (a : StatsD) (b : StatsY) : Prop :=
  a.batting.keys = b.batting.keys ∧
    (∀ k, (a.batting.val k).runs = (b.batting.val k).runs ∧
      (a.batting.val k).balls = (b.batting.val k).balls) ∧
    a.bowling.keys = b.bowling.keys ∧
    (∀ k, (a.bowling.val k).runs = (b.bowling.val k).runs ∧
      (a.bowling.val k).balls = (b.bowling.val k).balls) ∧
    a.team_scores.keys = b.team_scores.keys ∧
    ∀ k, a.team_scores.val k = b.team_scores.val k

theorem RelRaw_init : RelRaw initStatsD initStatsY := by
  refine ⟨rfl, fun k => ⟨rfl, rfl⟩, rfl, fun k => ⟨rfl, rfl⟩, rfl, fun k => rfl⟩

theorem RelRaw_step {team : String} {s : StatsD} {t : StatsY} {d : Delivery}
    {s' : StatsD} {t' : StatsY} (hD : processDeliveryD team s d = .ok s')
    (hY : processDeliveryY team t d = .ok t') (hrel : RelRaw s t) : RelRaw s' t' := by
  obtain ⟨b, bw, r, n, tt, hb, hbw, hr, hn, ht, rfl⟩ := processDeliveryD_ok_elim hD
  rw [processDeliveryY_eq team t d hb hbw hr hn ht] at hY
  obtain rfl : _ = t' := Except.ok.inj hY
  obtain ⟨k1, v1, k2, v2, k3, v3⟩ := hrel
  unfold RelRaw
  dsimp only
  refine ⟨?_, ?_, ?_, ?_, ?_, ?_⟩
  · simp only [StrMap.update, k1]
  · intro k
    by_cases hk : k = b
    · subst hk
      rw [StrMap.val_update_self, StrMap.val_update_self]
      exact ⟨by simp [(v1 k).1], by simp [(v1 k).2]⟩
    · rw [StrMap.val_update_of_ne _ _ hk, StrMap.val_update_of_ne _ _ hk]
      exact v1 k
  · simp only [StrMap.update, k2]
  · intro k
    by_cases hk : k = bw
    · subst hk
      rw [StrMap.val_update_self, StrMap.val_update_self]
      exact ⟨by simp [(v2 k).1], by simp [(v2 k).2]⟩
    · rw [StrMap.val_update_of_ne _ _ hk, StrMap.val_update_of_ne _ _ hk]
      exact v2 k
  · simp only [StrMap.update, k3]
  · intro k
    by_cases hk : k = team
    · subst hk
      rw [StrMap.val_update_self, StrMap.val_update_self, v3 k]
    · rw [StrMap.val_update_of_ne _ _ hk, StrMap.val_update_of_ne _ _ hk]
      exact v3 k

theorem RelRaw_deliveries {team : String} :
    ∀ {ds : List Delivery} {s : StatsD} {t : StatsY} {s' : StatsD} {t' : StatsY},
      processDeliveriesD team s ds = .ok s' → processDeliveriesY team t ds = .ok t' →
      RelRaw s t → RelRaw s' t' := by
  intro ds
  induction ds with
  | nil =>
    intro s t s' t' hD hY hrel
    cases hD
    cases hY
    exact hrel
  | cons d ds ih =>
    intro s t s' t' hD hY hrel
    unfold processDeliveriesD at hD
    unfold processDeliveriesY at hY
    cases h1 : processDeliveryD team s d with
    | error e => rw [h1] at hD; cases hD
    | ok s1 =>
      cases h2 : processDeliveryY team t d with
      | error e => rw [h2] at hY; cases hY
      | ok t1 =>
        rw [h1] at hD
        rw [h2] at hY
        exact ih hD hY (RelRaw_step h1 h2 hrel)

theorem RelRaw_innings :
    ∀ {inns : List Innings} {s : StatsD} {t : StatsY} {s' : StatsD} {t' : StatsY},
      processInningsD s inns = .ok s' → processInningsY t inns = .ok t' →
      RelRaw s t → RelRaw s' t' := by
  intro inns
  induction inns with
  | nil =>
    intro s t s' t' hD hY hrel
    cases hD
    cases hY
    exact hrel
  | cons inn inns ih =>
    intro s t s' t' hD hY hrel
    unfold processInningsD at hD
    unfold processInningsY at hY
    cases h1 : processDeliveriesD inn.team s inn.deliveries with
    | error e => rw [h1] at hD; cases hD
    | ok s1 =>
      cases h2 : processDeliveriesY inn.team t inn.deliveries with
      | error e => rw [h2] at hY; cases hY
      | ok t1 =>
        rw [h1] at hD
        rw [h2] at hY
        exact ih hD hY (RelRaw_deliveries h1 h2 hrel)

/-! ## Further fixtures used by the witnesses -/

/-- A delivery on which the batsman scores exactly 5 (neither boundary). -/
def d5 : Delivery := ⟨some "P1", some "B1", some ⟨some 5, some 5⟩, false, none⟩

/-- The snapshot `process_stats` computes for Scenario A's record. -/
def snapA : SnapshotD :=
  ⟨⟨["P1"], fun k =>
      deriveBatD (Function.update (fun _ => (⟨0, 0, 0, 0⟩ : BatAgg)) "P1"
        (⟨4, 1, 1, 0⟩ : BatAgg) k)⟩,
   ⟨["B1"], fun k =>
      deriveBowlD (Function.update (fun _ => (⟨0, 0, 0⟩ : BowlAgg)) "B1"
        (⟨4, 0, 1⟩ : BowlAgg) k)⟩,
   ⟨["T1"], Function.update (fun _ => (0 : Int)) "T1" 4⟩⟩

theorem process_stats_recA : process_stats recA = .ok snapA := rfl

/-! ## The claims -/

/-- Claim C1: for every delivery processed during aggregation, the batsman's
BattingAggregate is updated by adding the delivery's batsman_runs to runs and
exactly 1 to balls; fours is incremented by 1 exactly when batsman_runs
equals 4, sixes exactly when it equals 6, and a value of 5 increments
neither counter. -/
theorem C1_batting_update (m : StrMap BatAgg) (d : Delivery) (b : String) (r : Runs)
    (n : Int) (hb : d.batsman = some b) (hr : d.runs = some r)
    (hn : r.batsman = some n) :
    ((update_batting_stats m d).toOption.map (fun m2 => m2.val b) =
      some ⟨(m.val b).runs + n, (m.val b).balls + 1,
            (m.val b).fours + (if n = 4 then 1 else 0),
            (m.val b).sixes + (if n = 6 then 1 else 0)⟩) ∧
    (n = 5 →
      (update_batting_stats m d).toOption.map (fun m2 => m2.val b) =
        some ⟨(m.val b).runs + 5, (m.val b).balls + 1,
              (m.val b).fours, (m.val b).sixes⟩) := by
  have hmain : (update_batting_stats m d).toOption.map (fun m2 => m2.val b) =
      some ⟨(m.val b).runs + n, (m.val b).balls + 1,
            (m.val b).fours + (if n = 4 then 1 else 0),
            (m.val b).sixes + (if n = 6 then 1 else 0)⟩ := by
    simp only [update_batting_stats, hb, hr, hn, Except.toOption, Option.map_some']
    rw [StrMap.val_update_self]
  refine ⟨hmain, fun h5 => ?_⟩
  subst h5
  simpa using hmain

/-- Witness for C1 at a concrete input: a five-run ball materialises the
batsman with five runs, one ball faced, and no boundary counted. -/
theorem C1_batting_update_witness :
    (update_batting_stats initStatsD.batting d5).toOption.map (fun m2 => m2.val "P1") =
      some ⟨5, 1, 0, 0⟩ := by
  simpa [initStatsD] using
    (C1_batting_update initStatsD.batting d5 "P1" ⟨some 5, some 5⟩ 5 rfl rfl rfl).2 rfl

/-- Claim C4, counterexample: Scenario D's record carries a wicket marker on
its fourth delivery (`dD true`), yet `process_match_data` reports the bowler
"B1" with zero wickets (runs 6, wickets 0, balls 6, economy 6.0) — so "for
every delivery processed, wickets is incremented by 1 iff a wicket marker is
present" is false of that implementation, which its cited source lines
never incrementing wickets confirms. -/
theorem C4_counterexample :
    (dD true).wicket = true ∧
    (process_match_data recD).toOption.map (fun s => s.bowling.val "B1") =
      some ⟨6, 0, 6, 6⟩ := by
  refine ⟨rfl, ?_⟩
  simp [process_match_data, processInningsY, processDeliveriesY, processDeliveryY,
    initStatsY, deriveBattingY, deriveBowlingY, StrMap.update, recD, dD, round2,
    Except.toOption]
  norm_num [round_eq]

/-- Claim C4 as amended: both implementations add the delivery's total_runs
(not batsman_runs) to the bowler's runs conceded and exactly 1 to balls, but
only `update_bowling_stats` of `reportdeepseek_v3.py` increments wickets
when a wicket marker is present — `process_match_data` leaves wickets
untouched on every delivery.  Scenario D therefore yields
`{runs: 6, balls: 6, wickets: 1, overs: 1.0, economy: 6.0}` under
`process_stats` only. -/
theorem C4_bowling_update :
    (∀ (m : StrMap BowlAgg) (d : Delivery) (bw : String) (r : Runs) (t : Int),
      d.bowler = some bw → d.runs = some r → r.total = some t →
      (update_bowling_stats m d).toOption.map (fun m2 => m2.val bw) =
        some ⟨(m.val bw).runs + t,
              (m.val bw).wickets + (if d.wicket then 1 else 0),
              (m.val bw).balls + 1⟩) ∧
    (∀ (team : String) (s : StatsY) (d : Delivery) (b bw : String) (r : Runs) (n t : Int),
      d.batsman = some b → d.bowler = some bw → d.runs = some r →
      r.batsman = some n → r.total = some t →
      (processDeliveryY team s d).toOption.map (fun s2 => s2.bowling.val bw) =
        some ⟨(s.bowling.val bw).runs + t,
              (s.bowling.val bw).wickets,
              (s.bowling.val bw).balls + 1⟩) ∧
    (process_stats recD).toOption.map (fun s => s.bowling.val "B1") =
      some ⟨6, 1, 6, 6, 1⟩ := by
  refine ⟨?_, ?_, ?_⟩
  · intro m d bw r t hbw hr ht
    simp only [update_bowling_stats, hbw, hr, ht, Except.toOption, Option.map_some']
    rw [StrMap.val_update_self]
  · intro team s d b bw r n t hb hbw hr hn ht
    rw [processDeliveryY_eq team s d hb hbw hr hn ht]
    simp only [Except.toOption, Option.map_some']
    rw [StrMap.val_update_self]
  · simp [process_stats, processInningsD, processDeliveriesD, processDeliveryD,
      update_batting_stats, update_bowling_stats, initStatsD, calculate_derived_metrics,
      deriveBowlD, StrMap.update, recD, dD, round2, round1, Except.toOption]
    norm_num [round_eq]

/-- Witness for C4 at a concrete input: on a one-run wicket ball,
`update_bowling_stats` counts the wicket while `process_match_data`'s
delivery step does not. -/
theorem C4_bowling_update_witness :
    (update_bowling_stats initStatsD.bowling (dD true)).toOption.map
      (fun m2 => m2.val "B1") = some ⟨1, 1, 1⟩ ∧
    (processDeliveryY "T1" initStatsY (dD true)).toOption.map
      (fun s2 => s2.bowling.val "B1") = some ⟨1, 0, 1⟩ := by
  constructor
  · simpa [initStatsD, dD] using
      C4_bowling_update.1 initStatsD.bowling (dD true) "B1" ⟨some 1, some 1⟩ 1 rfl rfl rfl
  · simpa [initStatsY, dD] using
      C4_bowling_update.2.1 "T1" initStatsY (dD true) "P1" "B1" ⟨some 1, some 1⟩ 1 1
        rfl rfl rfl rfl rfl

/-- Claim C5, counterexample: on Scenario C's record (a delivery missing the
`'bowler'` field) the aggregation raises a `KeyError` carrying only the
missing key name — there is no `MalformedDeliveryError` and no innings or
delivery index in the error. -/
theorem C5_counterexample : process_stats recC = .error (.keyError "bowler") := rfl

/-- Claim C5 as amended: a record containing a delivery that lacks a required
field makes the aggregation fail fast — the exception aborts the whole pass
and the top-level caller catches it and returns no result (`None` /
an error string), never a partial snapshot — but the error is a plain
`KeyError` naming only the missing field, without innings or delivery
indices. -/
theorem C5_failfast :
    (∀ data : MatchRecord, validRecord data = false → analyze_match data = none) ∧
    analyze_cricket_match recC = none ∧
    process_match_data recC = .error (.keyError "bowler") := by
  refine ⟨?_, rfl, rfl⟩
  intro data hv
  cases h : processInningsD initStatsD data.innings with
  | error e => simp [analyze_match, process_stats, h, Except.toOption]
  | ok s =>
    have : validRecord data = true :=
      (validRecord_iff data).2 fun inn hinn d hd => processInningsD_ok_valid h inn hinn d hd
    rw [this] at hv
    cases hv

/-- Witness for C5 at a concrete input: Scenario C's record is invalid and
the caller of the aggregation receives no result for it. -/
theorem C5_failfast_witness :
    validRecord recC = false ∧ analyze_match recC = none :=
  ⟨by decide, C5_failfast.1 recC (by decide)⟩

/-- Claim C6, counterexample: on an empty innings list the aggregation
raises nothing — it returns a snapshot (with empty aggregates) instead of
surfacing an `EmptyMatchError`. -/
theorem C6_counterexample :
    (process_stats recB).toOption.map
      (fun s => (s.batting.keys, s.bowling.keys, s.team_scores.keys)) =
      some ([], [], []) := rfl

/-- Claim C6 as amended: for a MatchRecord whose innings list is empty, both
aggregation implementations raise no error and return a snapshot whose
aggregates are all empty. -/
theorem C6_empty_ok :
    (process_stats recB).toOption.map
      (fun s => (s.batting.keys, s.bowling.keys, s.team_scores.keys, s.team_scores.sumVal)) =
      some ([], [], [], 0) ∧
    (process_match_data recB).toOption.map
      (fun s => (s.batting.keys, s.bowling.keys, s.extras.keys, s.team_scores.keys)) =
      some ([], [], [], []) := by
  exact ⟨rfl, rfl⟩

/-- Claim C2: in every returned snapshot, a batsman entry with balls > 0 has
strike_rate = round(runs / balls * 100, 2); a bowler entry with balls > 0
has economy = round(runs / (balls / 6), 2) and overs = round(balls / 6, 1);
an entry with balls = 0 has rate 0.  For `process_match_data`, which derives
the metrics with no zero guard, every entry satisfies the same formulas. -/
theorem C2_derived_metrics :
    (∀ (data : MatchRecord) (s : SnapshotD), process_stats data = .ok s → ∀ k,
      ((s.batting.val k).balls > 0 →
        (s.batting.val k).strike_rate =
          round2 (((s.batting.val k).runs : ℚ) / ((s.batting.val k).balls : ℚ) * 100)) ∧
      ((s.batting.val k).balls = 0 → (s.batting.val k).strike_rate = 0) ∧
      ((s.bowling.val k).balls > 0 →
        (s.bowling.val k).economy =
          round2 (((s.bowling.val k).runs : ℚ) / (((s.bowling.val k).balls : ℚ) / 6))) ∧
      ((s.bowling.val k).balls = 0 → (s.bowling.val k).economy = 0) ∧
      (s.bowling.val k).overs = round1 (((s.bowling.val k).balls : ℚ) / 6)) ∧
    (∀ (data : MatchRecord) (s : SnapshotY), process_match_data data = .ok s → ∀ k,
      (s.batting.val k).strike_rate =
        round2 (((s.batting.val k).runs : ℚ) / ((s.batting.val k).balls : ℚ) * 100) ∧
      (s.bowling.val k).economy =
        round2 (((s.bowling.val k).runs : ℚ) / (((s.bowling.val k).balls : ℚ) / 6))) := by
  constructor
  · intro data s h k
    unfold process_stats at h
    cases h0 : processInningsD initStatsD data.innings with
    | error e => rw [h0] at h; cases h
    | ok s0 =>
      rw [h0] at h
      obtain rfl : _ = s := Except.ok.inj h
      dsimp only [calculate_derived_metrics, deriveBatD, deriveBowlD]
      refine ⟨fun hpos => ?_, fun hzero => ?_, fun hpos => ?_, fun hzero => ?_, rfl⟩
      · rw [if_pos hpos]
      · rw [if_neg]
        omega
      · have hq : (0 : ℚ) < ((s0.bowling.val k).balls : ℚ) / 6 := by
          have : (0 : ℚ) < ((s0.bowling.val k).balls : ℚ) := by exact_mod_cast hpos
          linarith
        rw [if_pos hq]
      · rw [if_neg]
        rw [hzero]
        norm_num
  · intro data s h k
    unfold process_match_data at h
    cases h0 : processInningsY initStatsY data.innings with
    | error e => rw [h0] at h; cases h
    | ok t0 =>
      rw [h0] at h
      dsimp only at h
      cases h1 : deriveBattingY t0.batting with
      | error e => rw [h1] at h; cases h
      | ok bb =>
        rw [h1] at h
        cases h2 : deriveBowlingY t0.bowling with
        | error e => rw [h2] at h; cases h
        | ok ww =>
          rw [h2] at h
          obtain rfl : _ = s := Except.ok.inj h
          unfold deriveBattingY at h1
          unfold deriveBowlingY at h2
          split at h1
          case isFalse => cases h1
          case isTrue =>
            split at h2
            case isFalse => cases h2
            case isTrue =>
              obtain rfl : _ = bb := Except.ok.inj h1
              obtain rfl : _ = ww := Except.ok.inj h2
              exact ⟨rfl, rfl⟩

/-- Witness for C2 at a concrete input: in Scenario A's snapshot the "P1"
entry has a positive ball count and its strike rate obeys the formula. -/
theorem C2_derived_metrics_witness :
    (snapA.batting.val "P1").balls > 0 ∧
    (snapA.batting.val "P1").strike_rate =
      round2 (((snapA.batting.val "P1").runs : ℚ) / ((snapA.batting.val "P1").balls : ℚ) * 100) :=
  ⟨by decide, (C2_derived_metrics.1 recA snapA process_stats_recA "P1").1 (by decide)⟩

/-- Claim C3: for every valid MatchRecord, the sum of the team-score
aggregate over all teams equals the sum of the total-runs field of every
delivery across every innings (in both implementations). -/
theorem C3_team_total (data : MatchRecord) (hv : validRecord data = true) :
    (process_stats data).toOption.map (fun s => s.team_scores.sumVal) =
      some (recordTotal data) ∧
    (process_match_data data).toOption.map (fun s => s.team_scores.sumVal) =
      some (recordTotal data) := by
  obtain ⟨s0, hfD, hps⟩ := process_stats_ok_of_valid hv
  obtain ⟨t0, hfY, hbinv, hpmd⟩ := process_match_data_ok_of_valid hv
  have hinv0 : InvTS initStatsD.team_scores := ⟨List.nodup_nil, fun j _ => rfl⟩
  obtain ⟨hinv, hsum⟩ := processInningsD_team hfD hinv0
  have hsumD : s0.team_scores.sumVal = recordTotal data := by
    rw [hsum]
    simp [initStatsD, StrMap.sumVal, recordTotal]
  obtain ⟨k1, v1, k2, v2, k3, v3⟩ := RelRaw_innings hfD hfY RelRaw_init
  have hsumY : t0.team_scores.sumVal = s0.team_scores.sumVal := by
    unfold StrMap.sumVal
    rw [← k3]
    exact congrArg List.sum (List.map_congr_left fun k _ => (v3 k).symm)
  constructor
  · rw [hps]
    simp only [Except.toOption, Option.map_some', Option.some.injEq]
    exact hsumD
  · rw [hpmd]
    simp only [Except.toOption, Option.map_some', Option.some.injEq]
    rw [hsumY, hsumD]

/-- Witness for C3 at a concrete input: Scenario A's record is valid and
both snapshots' team totals equal its four total runs. -/
theorem C3_team_total_witness :
    (process_stats recA).toOption.map (fun s => s.team_scores.sumVal) =
      some (recordTotal recA) ∧
    (process_match_data recA).toOption.map (fun s => s.team_scores.sumVal) =
      some (recordTotal recA) :=
  C3_team_total recA (by decide)

/-! ## Lemmas on the extras step -/

theorem extrasStep_cons (m : StrMap Int) (p : String × Int) (rest : List (String × Int)) :
    extrasStep m (p :: rest) =
      extrasStep ((m.update p.1 (· + 1)).update "total" (· + 1)) rest := rfl

theorem extrasStep_val_not_mem :
    ∀ (l : List (String × Int)) (m : StrMap Int) (e : String),
      e ∉ l.map Prod.fst → e ≠ "total" → (extrasStep m l).val e = m.val e := by
  intro l
  induction l with
  | nil => intro m e _ _; rfl
  | cons p rest ih =>
    intro m e hmem htot
    simp only [List.map_cons, List.mem_cons, not_or] at hmem
    obtain ⟨he1, he2⟩ := hmem
    rw [extrasStep_cons, ih _ e he2 htot, StrMap.val_update_of_ne _ _ htot,
      StrMap.val_update_of_ne _ _ he1]

theorem extrasStep_val_total :
    ∀ (l : List (String × Int)) (m : StrMap Int), "total" ∉ l.map Prod.fst →
      (extrasStep m l).val "total" = m.val "total" + l.length := by
  intro l
  induction l with
  | nil => intro m _; simp [extrasStep]
  | cons p rest ih =>
    intro m hmem
    simp only [List.map_cons, List.mem_cons, not_or] at hmem
    obtain ⟨hp, hrest⟩ := hmem
    have hp' : "total" ≠ p.1 := hp
    rw [extrasStep_cons, ih _ hrest, StrMap.val_update_self,
      StrMap.val_update_of_ne _ _ hp']
    simp only [List.length_cons]
    push_cast
    ring

theorem extrasStep_val_mem :
    ∀ (l : List (String × Int)) (m : StrMap Int) (e : String),
      (l.map Prod.fst).Nodup → "total" ∉ l.map Prod.fst → e ∈ l.map Prod.fst →
      (extrasStep m l).val e = m.val e + 1 := by
  intro l
  induction l with
  | nil => intro m e _ _ he; cases he
  | cons p rest ih =>
    intro m e hnd htot he
    rw [List.map_cons] at hnd
    have hnd' := List.nodup_cons.1 hnd
    simp only [List.map_cons, List.mem_cons, not_or] at htot he
    obtain ⟨htp, htrest⟩ := htot
    rcases he with he | herest
    · subst he
      have hetot : p.1 ≠ "total" := fun h => htp h.symm
      rw [extrasStep_cons, extrasStep_val_not_mem rest _ p.1 hnd'.1 hetot,
        StrMap.val_update_of_ne _ _ hetot, StrMap.val_update_self]
    · have hep : e ≠ p.1 := fun h => hnd'.1 (h ▸ herest)
      have hetot : e ≠ "total" := fun h => htrest (h ▸ herest)
      rw [extrasStep_cons, ih _ e hnd'.2 htrest herest,
        StrMap.val_update_of_ne _ _ hetot, StrMap.val_update_of_ne _ _ hep]

theorem extrasStep_keys_only :
    ∀ (l l2 : List (String × Int)) (m : StrMap Int),
      l.map Prod.fst = l2.map Prod.fst → extrasStep m l = extrasStep m l2 := by
  intro l
  induction l with
  | nil =>
    intro l2 m h
    cases l2 with
    | nil => rfl
    | cons q qs => simp at h
  | cons p rest ih =>
    intro l2 m h
    cases l2 with
    | nil => simp at h
    | cons q qs =>
      simp only [List.map_cons, List.cons.injEq] at h
      rw [extrasStep_cons, extrasStep_cons, h.1]
      exact ih qs _ h.2

/-- Claim C7: a delivery carrying an extras tag makes the aggregation
increment `ExtrasAggregate[extra_type]` by 1 and `ExtrasAggregate['total']`
by 1 for each extra type present on the delivery — counting occurrences,
not summing the extra run values (the result is independent of the run
values attached to the extra types). -/
theorem C7_extras :
    (∀ (team : String) (s s' : StatsY) (d : Delivery) (l : List (String × Int)),
      processDeliveryY team s d = .ok s' → d.extras = some l →
      s'.extras = extrasStep s.extras l) ∧
    (∀ (m : StrMap Int) (l : List (String × Int)),
      "total" ∉ l.map Prod.fst → (l.map Prod.fst).Nodup →
      (extrasStep m l).val "total" = m.val "total" + l.length ∧
        (∀ e ∈ l.map Prod.fst, (extrasStep m l).val e = m.val e + 1) ∧
        ∀ e, e ∉ l.map Prod.fst → e ≠ "total" → (extrasStep m l).val e = m.val e) ∧
    (∀ (m : StrMap Int) (l l2 : List (String × Int)),
      l.map Prod.fst = l2.map Prod.fst → extrasStep m l = extrasStep m l2) := by
  refine ⟨?_, ?_, fun m l l2 h => extrasStep_keys_only l l2 m h⟩
  · intro team s s' d l h hextra
    obtain ⟨b, bw, r, n, t, hb, hbw, hr, hn, ht⟩ :=
      (validDelivery_iff d).1 (processDeliveryY_ok_valid h)
    rw [processDeliveryY_eq team s d hb hbw hr hn ht] at h
    obtain rfl : _ = s' := Except.ok.inj h
    dsimp only
    rw [hextra]
  · intro m l htot hnd
    exact ⟨extrasStep_val_total l m htot,
      fun e he => extrasStep_val_mem l m e hnd htot he,
      fun e he1 he2 => extrasStep_val_not_mem l m e he1 he2⟩

/-- Witness for C7 at a concrete input: a wide-plus-noball delivery tallies
each type once and 'total' twice, ignoring the extra run values. -/
theorem C7_extras_witness :
    (extrasStep initStatsY.extras [("wides", 2), ("noballs", 1)]).val "wides" = 1 ∧
    (extrasStep initStatsY.extras [("wides", 2), ("noballs", 1)]).val "total" = 2 ∧
    extrasStep initStatsY.extras [("wides", 2), ("noballs", 1)] =
      extrasStep initStatsY.extras [("wides", 7), ("noballs", 9)] := by
  obtain ⟨h1, h2, h3⟩ :=
    C7_extras.2.1 initStatsY.extras [("wides", 2), ("noballs", 1)] (by decide) (by decide)
  refine ⟨?_, ?_, C7_extras.2.2 initStatsY.extras _ _ rfl⟩
  · simpa [initStatsY] using h2 "wides" (by decide)
  · simpa [initStatsY] using h1

/-- Claim C8: aggregation never raises a divide-by-zero fault on a valid
MatchRecord: `process_stats` guards every division with a balls > 0 check,
and `process_match_data`'s unguarded divisions only ever see lazily created
aggregates, whose ball count is at least 1. -/
theorem C8_no_div_by_zero (data : MatchRecord) (hv : validRecord data = true) :
    (process_stats data).isOk = true ∧ (process_match_data data).isOk = true := by
  obtain ⟨s0, _, hps⟩ := process_stats_ok_of_valid hv
  obtain ⟨t0, _, _, hpmd⟩ := process_match_data_ok_of_valid hv
  rw [hps, hpmd]
  exact ⟨rfl, rfl⟩

/-- Witness for C8 at a concrete input: Scenario A's record is valid and
both aggregations succeed on it. -/
theorem C8_no_div_by_zero_witness :
    validRecord recA = true ∧ (process_stats recA).isOk = true ∧
      (process_match_data recA).isOk = true :=
  ⟨by decide, (C8_no_div_by_zero recA (by decide)).1, (C8_no_div_by_zero recA (by decide)).2⟩

/-- Claim C9: aggregation is a pure, deterministic function of the match
record: it is a total Lean function here (no I/O or hidden state appears in
the embedding), and its result depends only on the record's innings — two
records with the same deliveries yield identical snapshots, so re-running
aggregation on the same record is idempotent. -/
theorem C9_pure (r1 r2 : MatchRecord) (h : r1.innings = r2.innings) :
    process_stats r1 = process_stats r2 ∧
    process_match_data r1 = process_match_data r2 ∧
    analyze_match r1 = analyze_match r2 ∧
    analyze_cricket_match r1 = analyze_cricket_match r2 := by
  have h1 : process_stats r1 = process_stats r2 := by
    unfold process_stats
    rw [h]
  have h2 : process_match_data r1 = process_match_data r2 := by
    unfold process_match_data
    rw [h]
  refine ⟨h1, h2, ?_, ?_⟩
  · unfold analyze_match
    rw [h1]
  · unfold analyze_cricket_match
    rw [h2]

/-- Witness for C9 at a concrete input: changing only the match-info
metadata leaves both aggregations' output unchanged. -/
theorem C9_pure_witness :
    process_stats recA = process_stats ⟨recA.innings, [("city", "Hyderabad")]⟩ ∧
    process_match_data recA = process_match_data ⟨recA.innings, [("city", "Hyderabad")]⟩ :=
  ⟨(C9_pure recA ⟨recA.innings, [("city", "Hyderabad")]⟩ rfl).1,
   (C9_pure recA ⟨recA.innings, [("city", "Hyderabad")]⟩ rfl).2.1⟩

/-- Claim C10, counterexample: on Scenario D's valid record the two
implementations disagree on a statistic both compute — `process_stats`
credits "B1" with 1 wicket, `process_match_data` with 0 — so the claimed
agreement on bowling wickets is false. -/
theorem C10_counterexample :
    validRecord recD = true ∧
    (process_stats recD).toOption.map (fun s => (s.bowling.val "B1").wickets) = some 1 ∧
    (process_match_data recD).toOption.map (fun s => (s.bowling.val "B1").wickets) =
      some 0 := by
  refine ⟨by decide, ?_, ?_⟩
  · simp [process_stats, processInningsD, processDeliveriesD, processDeliveryD,
      update_batting_stats, update_bowling_stats, initStatsD, calculate_derived_metrics,
      deriveBowlD, StrMap.update, recD, dD, Except.toOption]
  · simp [process_match_data, processInningsY, processDeliveriesY, processDeliveryY,
      initStatsY, deriveBattingY, deriveBowlingY, StrMap.update, recD, dD,
      Except.toOption]

/-- Claim C10 as amended: on every valid MatchRecord the two implementations
agree on batting runs, balls and strike_rate per batsman, bowling runs,
balls and economy per bowler, and the whole team-score aggregate — but not
on wickets: `process_match_data` never increments a wicket count, so its
wickets values are all 0 while `process_stats` counts wicket deliveries. -/
theorem C10_equivalence (data : MatchRecord) (hv : validRecord data = true) :
    ∃ sD sY, process_stats data = .ok sD ∧ process_match_data data = .ok sY ∧
      sD.batting.keys = sY.batting.keys ∧
      (∀ k ∈ sD.batting.keys,
        (sD.batting.val k).runs = (sY.batting.val k).runs ∧
        (sD.batting.val k).balls = (sY.batting.val k).balls ∧
        (sD.batting.val k).strike_rate = (sY.batting.val k).strike_rate) ∧
      sD.bowling.keys = sY.bowling.keys ∧
      (∀ k ∈ sD.bowling.keys,
        (sD.bowling.val k).runs = (sY.bowling.val k).runs ∧
        (sD.bowling.val k).balls = (sY.bowling.val k).balls ∧
        (sD.bowling.val k).economy = (sY.bowling.val k).economy) ∧
      (∀ k, (sY.bowling.val k).wickets = 0) ∧
      sD.team_scores.keys = sY.team_scores.keys ∧
      ∀ k, sD.team_scores.val k = sY.team_scores.val k := by
  obtain ⟨s0, hfD, hps⟩ := process_stats_ok_of_valid hv
  obtain ⟨t0, hfY, hbinv, hpmd⟩ := process_match_data_ok_of_valid hv
  obtain ⟨k1, v1, k2, v2, k3, v3⟩ := RelRaw_innings hfD hfY RelRaw_init
  obtain ⟨hb0, hb1, hw0, hw1⟩ := hbinv
  have hwz : WicketsZeroY t0 := processInningsY_wicketsZero hfY initStatsY_wicketsZero
  refine ⟨_, _, hps, hpmd, ?_, ?_, ?_, ?_, ?_, ?_, ?_⟩
  · dsimp only [calculate_derived_metrics]
    exact k1
  · intro k hk
    dsimp only [calculate_derived_metrics] at hk ⊢
    dsimp only [deriveBatD]
    have hkY : k ∈ t0.batting.keys := k1 ▸ hk
    have hballs : (s0.batting.val k).balls = (t0.batting.val k).balls := (v1 k).2
    have hpos : 0 < (s0.batting.val k).balls := by
      rw [hballs]
      exact lt_of_lt_of_le zero_lt_one (hb1 k hkY)
    refine ⟨(v1 k).1, hballs, ?_⟩
    rw [if_pos hpos, (v1 k).1, hballs]
  · dsimp only [calculate_derived_metrics]
    exact k2
  · intro k hk
    dsimp only [calculate_derived_metrics] at hk ⊢
    dsimp only [deriveBowlD]
    have hkY : k ∈ t0.bowling.keys := k2 ▸ hk
    have hruns : (s0.bowling.val k).runs = (t0.bowling.val k).runs := (v2 k).1
    have hballs : (s0.bowling.val k).balls = (t0.bowling.val k).balls := (v2 k).2
    have hpos : (0 : ℚ) < ((s0.bowling.val k).balls : ℚ) / 6 := by
      have h1le : (1 : ℤ) ≤ (t0.bowling.val k).balls := hw1 k hkY
      have : (0 : ℚ) < ((s0.bowling.val k).balls : ℚ) := by
        rw [hballs]
        exact_mod_cast lt_of_lt_of_le zero_lt_one h1le
      linarith
    refine ⟨hruns, hballs, ?_⟩
    rw [if_pos hpos, hruns, hballs]
  · intro k
    exact hwz k
  · dsimp only [calculate_derived_metrics]
    exact k3
  · intro k
    dsimp only [calculate_derived_metrics]
    exact v3 k

/-- Witness for C10 at a concrete input: on Scenario A's (valid) record both
implementations succeed and materialise the same batting keys. -/
theorem C10_equivalence_witness :
    validRecord recA = true ∧
    (process_stats recA).toOption.map (fun s => s.batting.keys) =
      (process_match_data recA).toOption.map (fun s => s.batting.keys) := by
  obtain ⟨sD, sY, hD, hY, hkeys, _⟩ := C10_equivalence recA (by decide)
  refine ⟨by decide, ?_⟩
  rw [hD, hY]
  simpa [Except.toOption] using hkeys

end Cricket
